import Mathlib

/-!
Verification of the smart search bar autocomplete/token-editing engine
(SmartSearchBar component). Queries are modelled as lists of characters;
source offsets are natural numbers, cursor positions are integers (the
component reports -1 when no input element is attached). Pure text-splicing
operations are translated directly from the component source; the external
query parser and the small syntax utilities it imports (which live outside
the included sources) are modelled from the specification and are marked as
such in their doc comments.
-/

/-- Half-open source-offset range of a token, written {start, end} in the
source; end is a reserved word in Lean so the field is named stop. -/
structure Loc where
  start : Nat
  stop : Nat
deriving DecidableEq

/-- Filter shapes relevant to the claims: plain text filters and
multi-value (list) filters, called FilterType.TextIn in the source. -/
inductive FType
  | text
  | textIn
deriving DecidableEq

/-- Filter token: key-operator-value clause with source locations, a
negation flag and an invalid flag, as described by the data model section
of the specification and consumed throughout the component. -/
structure FilterTok where
  loc : Loc
  keyLoc : Loc
  valueLoc : Loc
  negated : Bool
  invalid : Bool
  text : List Char
  keyText : List Char
  valueText : List Char
  ftype : FType
deriving DecidableEq

/-- Root token of a parsed query: a Filter or a FreeText run. -/
inductive RootTok
  | filter (f : FilterTok)
  | freeText (loc : Loc) (text : List Char)
deriving DecidableEq

/-- Value sub-token (Token.ValueText) as used by the cursorValue getter. -/
structure ValueTok where
  loc : Loc
  text : List Char
deriving DecidableEq

/-- Suggestion categories (ItemType in the source). -/
inductive ItemType
  | tagKey
  | tagValue
  | tagOperator
  | recentSearch
  | invalidTag
  | defaultItem
  | firstRelease
deriving DecidableEq

/-- Suggestion entry (SearchItem in the source); the selection callback is
modelled as a flag since only its presence matters to the claims. -/
structure SearchItem where
  value : Option (List Char) := none
  desc : Option (List Char) := none
  itemType : ItemType
  ignoreMaxSearchItems : Bool := false
  hasCallback : Bool := false
deriving DecidableEq

/-- Rendered suggestion group (SearchGroup in the source); only the items
are modelled, presentation fields are irrelevant to the claims. -/
structure SearchGroup where
  searchItems : List SearchItem := []
deriving DecidableEq

/-- Tag descriptor from the supportedTags catalog. -/
structure TagDef where
  key : List Char
  values : Option (List (List Char)) := none
  maxSuggestedValues : Option Nat := none
  predefined : Bool := false
deriving DecidableEq

/-- Location of a token in the query. -/
def tokLoc : RootTok → Loc
  | RootTok.filter f => f.loc
  | RootTok.freeText l _ => l

/-- Raw text of a token. -/
def tokText : RootTok → List Char
  | RootTok.filter f => f.text
  | RootTok.freeText _ t => t

/-- Modelled from the spec: isWithinToken from the searchSyntax utilities
(not under the included sources). The boundary policy is inclusive at both
ends: a cursor positioned immediately after the last character of a token
is within that token. -/
def isWithinToken (l : Loc) (pos : Int) : Bool :=
  (l.start : Int) ≤ pos && pos ≤ (l.stop : Int)

/-- Accumulating splitter: cuts a character list into maximal runs of
non-space characters, each tagged with its absolute start offset. -/
def wordsAux : List Char → Nat → Option (Nat × List Char) → List (Nat × List Char)
  | [], _, none => []
  | [], _, some (s, w) => [(s, w.reverse)]
  | c :: rest, pos, none =>
    if c = ' ' then wordsAux rest (pos + 1) none
    else wordsAux rest (pos + 1) (some (pos, [c]))
  | c :: rest, pos, some (s, w) =>
    if c = ' ' then (s, w.reverse) :: wordsAux rest (pos + 1) none
    else wordsAux rest (pos + 1) (some (s, c :: w))

/-- Top-level word split of a query with absolute offsets. -/
def splitQueryWords (q : List Char) : List (Nat × List Char) :=
  wordsAux q 0 none

/-- Index of the first occurrence of a character, as String.indexOf does. -/
def indexOfChar (c : Char) : List Char → Option Nat
  | [] => none
  | x :: xs => if x = c then some 0 else (indexOfChar c xs).map (· + 1)

/-- Modelled from the spec: the external query parser (a collaborator not
under the included sources) classifying a single word. A word holding a
colon after a nonempty key parses as a Filter token carrying key, value and
negation locations; the negation marker is a single leading bang and the
value of a list filter starts with an open bracket. -/
def mkFilterTok (start : Nat) (w : List Char) : Option FilterTok :=
  let negated : Bool := w.head? == some '!'
  let core := if negated then w.drop 1 else w
  let base := if negated then start + 1 else start
  match indexOfChar ':' core with
  | none => none
  | some i =>
    if i = 0 then none
    else
      let v := core.drop (i + 1)
      some
        { loc := ⟨start, start + w.length⟩
          keyLoc := ⟨base, base + i⟩
          valueLoc := ⟨base + i + 1, start + w.length⟩
          negated := negated
          invalid := false
          text := w
          keyText := core.take i
          valueText := v
          ftype := if v.head? == some '[' then FType.textIn else FType.text }

/-- Modelled from the spec: parseSearch restricted to queries whose root
tokens are space-separated; every word with a colon becomes a Filter and
every other word a FreeText token, in left-to-right order. -/
def parseQuery (q : List Char) : List RootTok :=
  (splitQueryWords q).map fun sw =>
    match mkFilterTok sw.1 sw.2 with
    | some f => RootTok.filter f
    | none => RootTok.freeText ⟨sw.1, sw.1 + sw.2.length⟩ sw.2

/-- Ordered Filter tokens of a tree (the filterTokens getter). -/
def filterToks (toks : List RootTok) : List FilterTok :=
  toks.filterMap fun t =>
    match t with
    | RootTok.filter f => some f
    | _ => none

/-- Locations of the Filter tokens of a query. -/
def filterLocs (q : List Char) : List Loc :=
  (filterToks (parseQuery q)).map FilterTok.loc

/-- Cursor/token locator (findTokensAtCursor specialised to the root kinds
Filter and FreeText): the first root token containing the cursor. -/
def findTokenAtCursor (toks : List RootTok) (cursor : Int) : Option RootTok :=
  toks.find? fun t => isWithinToken (tokLoc t) cursor

/-- Value sub-token of a filter. -/
def filterValueTok (f : FilterTok) : ValueTok :=
  ⟨f.valueLoc, f.valueText⟩

/-- Modelled from the spec: the cursorValue getter locates the ValueText
token under the cursor. For a plain text filter the whole value is one
ValueText node; for a list filter the individual elements are the ValueText
nodes, so a cursor sitting in an empty slot of a list lies in none of them
and the locator yields none (list element sub-locations themselves are not
needed by the claims and are not modelled further). -/
def cursorValueOf (toks : List RootTok) (cursor : Int) : Option ValueTok :=
  (toks.filterMap fun t =>
    match t with
    | RootTok.filter f =>
      if f.ftype = FType.text ∧ isWithinToken f.valueLoc cursor then
        some (filterValueTok f)
      else none
    | _ => none).head?

/-- Modelled from the spec: getKeyName from the searchSyntax utilities
returns the name of a filter key (aggregate argument handling is irrelevant
to the simple keys appearing in the claims). -/
def getKeyName (f : FilterTok) : List Char :=
  f.keyText

/-- Whitespace predicate used by the String.trim calls of the source. -/
def isJsSpace (c : Char) : Bool :=
  c = ' ' || c = '\t' || c = '\n' || c = '\r'

/-- Trim of leading and trailing whitespace (String.prototype.trim). -/
def trimChars (l : List Char) : List Char :=
  ((l.dropWhile isJsSpace).reverse.dropWhile isJsSpace).reverse

/-- Removal of the first newline character only: the source calls
String.prototype.replace with a plain string pattern, which replaces a
single occurrence. -/
def removeFirstNewline : List Char → List Char
  | [] => []
  | c :: rest => if c = '\n' then rest else c :: removeFirstNewline rest

/-- Modelled from the spec: the removeSpace utility (not under the included
sources) strips the single trailing space kept for editing convenience
before the query is submitted. -/
def removeSpace (q : List Char) : List Char :=
  if q.getLast? = some ' ' then q.dropLast else q

/-- Test whether the first list starts the second one. -/
def listStartsWith : List Char → List Char → Bool
  | [], _ => true
  | _ :: _, [] => false
  | a :: as, b :: bs => a = b && listStartsWith as bs

/-- Substring containment with String.indexOf semantics: the empty needle
is contained in every haystack. -/
def containsSeq (needle : List Char) : List Char → Bool
  | [] => needle.isEmpty
  | c :: rest => listStartsWith needle (c :: rest) || containsSeq needle rest

/-- Token Editor: negateToken (pure fallback splice path of the source; the
platform text-insertion path performs the same splice). For a negated
filter the leading negation marker is removed by keeping the text from the
key start; otherwise the marker is inserted immediately before the key
start. The returned cursor follows the explicit selection restore of the
source: the relative offset within the key is preserved, shifted by one for
the inserted or removed marker. -/
def negateToken (query : List Char) (tok : FilterTok) (cursor : Int) :
    List Char × Int :=
  if tok.negated then
    (query.take tok.loc.start ++ query.drop tok.keyLoc.start,
      (tok.loc.start : Int) + (cursor - (tok.keyLoc.start : Int)))
  else
    (query.take tok.keyLoc.start ++ '!' :: query.drop tok.keyLoc.start,
      (tok.loc.start : Int) + (cursor - (tok.keyLoc.start : Int)) + 1)

/-- Index of a location in the filter-token list, with the minus-one
convention of Array.prototype.findIndex. -/
def findIndexLoc (t : Loc) : List Loc → Int
  | [] => -1
  | l :: rest =>
    if l = t then 0
    else if findIndexLoc t rest = -1 then -1 else findIndexLoc t rest + 1

/-- Token Editor: deleteToken. The text spanned by the token under the
cursor is removed; both splice boundaries are trimmed and a single space is
reinserted when the deleted token was neither the first nor the last of the
filter tokens. Without a token under the cursor, or without any filter
token, the query is unchanged. -/
def deleteToken (query : List Char) (cursorTok : Option Loc)
    (filters : List Loc) : List Char :=
  match cursorTok with
  | none => query
  | some tok =>
    if 0 < filters.length then
      let index := findIndexLoc tok filters
      trimChars (query.take tok.start)
        ++ (if 0 < index ∧ index < (filters.length : Int) - 1 then [' '] else [])
        ++ trimChars (query.drop tok.stop)
    else query

/-- Paste interception (onPaste): the clipboard text loses its first
newline and is trimmed, then replaces the current selection; the cursor is
placed at the end of the inserted text. Returns the merged query and the
new cursor position. -/
def onPaste (clipboard query : List Char) (selStart selEnd : Nat) :
    List Char × Nat :=
  let text := trimChars (removeFirstNewline clipboard)
  let textBefore := query.take selStart
  let textAfter := query.drop selEnd
  (textBefore ++ text ++ textAfter, selStart + text.length)

/-- Delimiter characters of the cursorSearchTerm getter. -/
def limiterChar (c : Char) : Bool :=
  c = ' ' || c = ':'

/-- Leftward scan of cursorSearchTerm: walk left from the inner offset
while the previous character is no delimiter. An out-of-range access reads
as a non-delimiter, matching the undefined lookup of the source. -/
def scanLeft (text : List Char) : Nat → Nat
  | 0 => 0
  | n + 1 => if limiterChar (text.getD n 'a') then n + 1 else scanLeft text n

/-- Rightward scan of cursorSearchTerm over the remaining characters. -/
def scanRightAux : List Char → Nat → Nat
  | [], i => i
  | c :: rest, i => if limiterChar c then i else scanRightAux rest (i + 1)

/-- Absolute boundaries and text of the sub-word under the cursor inside a
token (the cursorSearchTerm getter), with a leading negation marker
stripped from the term and excluded from the start offset. -/
structure SearchTermInfo where
  startOff : Nat
  endOff : Nat
  term : List Char
deriving DecidableEq

/-- Computation of cursorSearchTerm for a token starting at tokStart with
the given raw text. -/
def cursorSearchTerm (cursor : Int) (tokStart : Nat) (text : List Char) :
    SearchTermInfo :=
  let innerStart := (cursor - (tokStart : Int)).toNat
  let tokenStart := scanLeft text innerStart
  let tokenEnd := scanRightAux (text.drop innerStart) innerStart
  let searchTerm := (text.take tokenEnd).drop tokenStart
  if searchTerm.head? = some '!' then
    { startOff := tokStart + tokenStart + 1
      endOff := tokStart + tokenEnd
      term := searchTerm.drop 1 }
  else
    { startOff := tokStart + tokenStart
      endOff := tokStart + tokenEnd
      term := searchTerm }

/-- Suggestion acceptance (onAutoCompleteFromAst): computes the span of
query text to overwrite and the replacement, then splices. Returns none
when no recognized case matched (no edit occurs); otherwise the new query
together with the new cursor position, which is absent exactly in the
token-free append case where the source leaves the selection untouched.
The negative-to-zero clamping of String.prototype.substring is mirrored by
Int.toNat. -/
def onAutoCompleteFromAst (query : List Char) (cursor : Int)
    (cursorToken : Option RootTok) (cursorValue : Option ValueTok)
    (itemType : ItemType) (replaceText : List Char) :
    Option (List Char × Option Nat) :=
  match cursorToken with
  | none => some (query ++ replaceText, none)
  | some ctok =>
    let spans : Option (Int × Int) × List Char :=
      match ctok with
      | RootTok.filter f =>
        if itemType = ItemType.tagOperator then
          (some ((f.loc.start : Int), (f.valueLoc.start : Int)),
            if replaceText = "!:".toList then '!' :: f.keyText ++ [':']
            else f.keyText ++ replaceText)
        else if isWithinToken f.valueLoc cursor then
          let valueToken := cursorValue.getD (filterValueTok f)
          if f.ftype = FType.textIn then
            if cursorValue = none then (some (cursor, cursor), replaceText)
            else
              (some ((valueToken.loc.start : Int), (valueToken.loc.stop : Int)),
                replaceText)
          else
            let clauseStart : Int := (f.keyLoc.stop : Int) + 1
            let clauseEnd : Int := (valueToken.loc.stop : Int) + 1
            let rt :=
              if getKeyName f = "user".toList then
                '"' :: trimChars replaceText ++ ['"']
              else replaceText
            if valueToken.text = "[]".toList then
              (some (clauseStart + 1, clauseEnd - 2), rt)
            else (some (clauseStart, clauseEnd), rt ++ [' '])
        else if isWithinToken f.keyLoc cursor then
          (some ((f.keyLoc.start : Int), (f.keyLoc.stop : Int) + 1), replaceText)
        else (none, replaceText)
      | RootTok.freeText l txt =>
        let st := cursorSearchTerm cursor l.start txt
        (some ((st.startOff : Int), (st.endOff : Int)), replaceText)
    match spans.1 with
    | none => none
    | some (s, e) =>
      let beforeClause := query.take s.toNat
      let endClause := query.drop e.toNat
      some (beforeClause ++ spans.2 ++ endClause,
        some (beforeClause.length + spans.2.length))

/-- Early-terminating scan of the hasValidSearch getter: false as soon as a
Filter token carries the invalid flag, true otherwise. -/
def hasValidSearchTree : List RootTok → Bool
  | [] => true
  | RootTok.filter f :: rest =>
    if f.invalid then false else hasValidSearchTree rest
  | RootTok.freeText _ _ :: rest => hasValidSearchTree rest

/-- Validity check of the hasValidSearch getter: a parse failure (absent
tree) is treated optimistically as valid. -/
def hasValidSearch (parsedQuery : Option (List RootTok)) : Bool :=
  match parsedQuery with
  | none => true
  | some toks => hasValidSearchTree toks

/-- Externally observable effects of one doSearch call: the argument passed
to the onSearch callback when it fires, and the query passed to the
recent-search persistence sink when a save is attempted. -/
structure DoSearchEffects where
  searched : Option (List Char)
  savedRecent : Option (List Char)
deriving DecidableEq

/-- Submission (doSearch): bails out before invoking the search callback
unless hasValidSearch holds; otherwise fires onSearch with the
space-stripped query, and additionally attempts a recent-search save when a
saved-search scope is configured and the stripped query is nonempty. -/
def doSearch (query : List Char) (parsedQuery : Option (List RootTok))
    (savedSearchType : Option Nat) : DoSearchEffects :=
  if hasValidSearch parsedQuery then
    let q := removeSpace query
    { searched := some q
      savedRecent :=
        if savedSearchType.isSome ∧ q ≠ [] then some q else none }
  else { searched := none, savedRecent := none }

/-- Arrow keys handled by the dropdown navigation of onKeyDown. -/
inductive ArrowKey
  | up
  | down
deriving DecidableEq

/-- Dropdown navigation of onKeyDown: with nothing highlighted the current
index is taken as zero; arrow-up always decrements modulo the item count
while arrow-down increments only when something is highlighted and
otherwise lands on index zero. Int.tmod matches the truncating remainder
of the source language on the nonnegative operands arising here. -/
def nextActiveSearchItem (key : ArrowKey) (activeSearchItem : Int)
    (totalItems : Nat) : Int :=
  let isSelecting : Bool := activeSearchItem != -1
  let currIndex : Int := if isSelecting then activeSearchItem else 0
  match key with
  | ArrowKey.up => Int.tmod (currIndex - 1 + (totalItems : Int)) (totalItems : Int)
  | ArrowKey.down =>
    if isSelecting then Int.tmod (currIndex + 1) (totalItems : Int) else 0

/-- Shared controller state touched by the asynchronous autocomplete
pipeline: query text, live cursor offset, the suggestion-list state
(searchGroups and flatSearchItems), highlight index and search term. -/
structure BarState where
  query : List Char
  cursorPos : Int
  searchGroups : List SearchGroup
  flatSearchItems : List SearchItem
  activeSearchItem : Int
  searchTerm : List Char
deriving DecidableEq

/-- Commit step shared by the completion handlers (the setState performed
by updateAutoCompleteStateMultiHeader and updateAutoCompleteState):
replaces the suggestion-list state with the assembled groups and clears the
highlight. Group assembly itself (createSearchGroups, outside the included
sources) is abstracted as the already-flattened inputs. -/
def commitAutoComplete (st : BarState) (groups : List SearchGroup)
    (flat : List SearchItem) : BarState :=
  { st with
    searchGroups := groups
    flatSearchItems := flat
    activeSearchItem := -1 }

/-- Completion handler of the value-state branch of
updateAutoCompleteFromAst: the cursor offset captured at fetch initiation
must still equal the live cursor offset, otherwise the result is dropped. -/
def valueStateOnComplete (capturedCursor : Int) (groups : List SearchGroup)
    (flat : List SearchItem) (st : BarState) : BarState :=
  if capturedCursor = st.cursorPos then commitAutoComplete st groups flat
  else st

/-- Completion handler of the key-state branch of updateAutoCompleteFromAst:
same cursor guard; on commit the search term is also set to the tag name. -/
def keyStateOnComplete (capturedCursor : Int) (tagName : List Char)
    (groups : List SearchGroup) (flat : List SearchItem) (st : BarState) :
    BarState :=
  if capturedCursor = st.cursorPos then
    commitAutoComplete { st with searchTerm := tagName } groups flat
  else st

/-- Completion handler of the free-text branch of updateAutoCompleteFromAst:
same cursor guard; on commit the search term is set to the cursor term. -/
def freeTextStateOnComplete (capturedCursor : Int) (term : List Char)
    (groups : List SearchGroup) (flat : List SearchItem) (st : BarState) :
    BarState :=
  if capturedCursor = st.cursorPos then
    commitAutoComplete { st with searchTerm := term } groups flat
  else st

/-- Completion handler of the asynchronous default-state branch
(showDefaultSearches with no configured default items): the guard compares
the query text captured at initiation with the live query text, not the
cursor offsets. -/
def defaultStateOnComplete (capturedQuery : List Char)
    (groups : List SearchGroup) (flat : List SearchItem) (st : BarState) :
    BarState :=
  if capturedQuery = st.query then commitAutoComplete st groups flat
  else st

/-- Replacement of every double quote by a backslash-escaped double quote
(the global-regex replace of escapeValue). -/
def escapeQuotes : List Char → List Char
  | [] => []
  | c :: rest =>
    if c = '"' then '\\' :: '"' :: escapeQuotes rest
    else c :: escapeQuotes rest

/-- Escape of a raw tag value before it becomes a suggestion: wrapped in
double quotes, with inner double quotes backslash-escaped, exactly when the
raw value holds a space or a double quote. -/
def escapeValue (v : List Char) : List Char :=
  if v.contains ' ' || v.contains '"' then '"' :: (escapeQuotes v ++ ['"'])
  else v

/-- Post-fetch mapping of the remote value fetcher (getTagValues): the
fetched raw values, with a synthetic latest entry put first for the release
tag when absent, each become a suggestion carrying the escaped value as
both value and description. The fetch itself and its bookkeeping determine
the fetched list and are irrelevant to the escape claim. -/
def getTagValuesItems (tag : TagDef) (fetched : List (List Char)) :
    List SearchItem :=
  let values :=
    if tag.key = "release:".toList ∧ ¬ fetched.contains "latest".toList then
      "latest".toList :: fetched
    else fetched
  values.map fun v =>
    { value := some (escapeValue v)
      desc := some (escapeValue v)
      itemType := ItemType.tagValue }

/-- Predefined value fetcher (getPredefinedTagValues): the static value
list is filtered by substring match against the query, then mapped to
suggestions carrying escaped values; an entry bypasses the item cap exactly
when the tag declares a truthy maximum and the entry index is below it. -/
def getPredefinedTagValues (tag : TagDef) (query : List Char) :
    List SearchItem :=
  (((tag.values.getD []).filter fun v => containsSeq query v).enum.map
    fun iv =>
      { value := some (escapeValue iv.2)
        desc := some (escapeValue iv.2)
        itemType := ItemType.tagValue
        ignoreMaxSearchItems :=
          match tag.maxSuggestedValues with
          | none => false
          | some m => if m = 0 then false else decide (iv.1 < m) })

/-- Parse of the plain filter query level:error, for the negation witness. -/
def levelErrorTok : FilterTok :=
  ⟨⟨0, 11⟩, ⟨0, 5⟩, ⟨6, 11⟩, false, false, "level:error".toList,
    "level".toList, "error".toList, FType.text⟩

/-- Parse of the negated filter query with a leading bang, for the negation
witness. -/
def negLevelErrorTok : FilterTok :=
  ⟨⟨0, 12⟩, ⟨1, 6⟩, ⟨7, 12⟩, true, false, "!level:error".toList,
    "level".toList, "error".toList, FType.text⟩

/-- Filter token carrying the invalid flag, for the submission witness. -/
def invalidAB : FilterTok :=
  ⟨⟨0, 3⟩, ⟨0, 1⟩, ⟨2, 3⟩, false, true, "a:b".toList, "a".toList,
    "b".toList, FType.text⟩

/-- Parse of the filter query age:5, for the operator-suggestion witness. -/
def ageTok : FilterTok :=
  ⟨⟨0, 5⟩, ⟨0, 3⟩, ⟨4, 5⟩, false, false, "age:5".toList, "age".toList,
    "5".toList, FType.text⟩

/-- Modelled from the spec: the parse of the list filter user:[alice, ]
(a multi-value filter of the external grammar, which lies outside the
included sources; the comment inside onAutoCompleteFromAst shows exactly
this shape when a further value is being added to an empty slot). -/
def userListTok : FilterTok :=
  ⟨⟨0, 14⟩, ⟨0, 4⟩, ⟨5, 14⟩, false, false, "user:[alice, ]".toList,
    "user".toList, "[alice, ]".toList, FType.textIn⟩

/-- Controller state whose live cursor offset sits at nine while the query
text is unchanged since fetch initiation. -/
def staleState : BarState := ⟨"abc".toList, 9, [], [], -1, []⟩

/-- Nonempty fetched suggestion groups arriving at a completion handler. -/
def staleGroups : List SearchGroup :=
  [⟨[⟨some "is:unresolved".toList, none, ItemType.tagKey, false, false⟩]⟩]

/-- Tag with one predefined value containing a space, for the escape
witness. -/
def demoTag : TagDef := ⟨"env".toList, some ["a b".toList], none, true⟩

lemma wordsAux_noSpace (l : List Char) (hl : ' ' ∉ l) :
    ∀ (pos s : Nat) (w : List Char),
      wordsAux l pos (some (s, w)) = [(s, w.reverse ++ l)] := by
  induction l with
  | nil => intro pos s w; simp [wordsAux]
  | cons c rest ih =>
    intro pos s w
    have hc : c ≠ ' ' := fun h => hl (h ▸ List.mem_cons_self c rest)
    have hr : ' ' ∉ rest := fun h => hl (List.mem_cons_of_mem c h)
    simp [wordsAux, hc, ih hr]

lemma splitQueryWords_noSpace (l : List Char) (hne : l ≠ []) (hl : ' ' ∉ l) :
    splitQueryWords l = [(0, l)] := by
  cases l with
  | nil => exact absurd rfl hne
  | cons c rest =>
    have hc : c ≠ ' ' := fun h => hl (h ▸ List.mem_cons_self c rest)
    have hr : ' ' ∉ rest := fun h => hl (List.mem_cons_of_mem c h)
    simp [splitQueryWords, wordsAux, hc, wordsAux_noSpace rest hr 1 0 [c]]

lemma indexOfChar_colon (key value : List Char) (hk : ':' ∉ key) :
    indexOfChar ':' (key ++ ':' :: value) = some key.length := by
  induction key with
  | nil => simp [indexOfChar]
  | cons c k ih =>
    have hc : c ≠ ':' := fun h => hk (h ▸ List.mem_cons_self c k)
    have hk' : ':' ∉ k := fun h => hk (List.mem_cons_of_mem c h)
    simp [indexOfChar, hc, ih hk']

lemma drop_key_colon (key value : List Char) :
    List.drop (key.length + 1) (key ++ ':' :: value) = value := by
  have h2 : key ++ ':' :: value = (key ++ [':']) ++ value := by simp
  have hlen : (key ++ [':']).length = key.length + 1 := by simp
  rw [h2, ← hlen, List.drop_left]

lemma parseQuery_single_pos (key value : List Char) (hk : key ≠ [])
    (hkc : ':' ∉ key) (hks : ' ' ∉ key) (hkb : key.head? ≠ some '!')
    (hvs : ' ' ∉ value) :
    parseQuery (key ++ ':' :: value) =
      [RootTok.filter
        { loc := ⟨0, (key ++ ':' :: value).length⟩
          keyLoc := ⟨0, key.length⟩
          valueLoc := ⟨key.length + 1, (key ++ ':' :: value).length⟩
          negated := false
          invalid := false
          text := key ++ ':' :: value
          keyText := key
          valueText := value
          ftype := if value.head? == some '[' then FType.textIn
                   else FType.text }] := by
  have hq : ' ' ∉ key ++ ':' :: value := by
    intro h
    rcases List.mem_append.mp h with h1 | h1
    · exact hks h1
    · rcases List.mem_cons.mp h1 with h2 | h2
      · exact absurd h2 (by decide)
      · exact hvs h2
  have hqne : key ++ ':' :: value ≠ [] := by
    intro h
    exact absurd (List.append_eq_nil.mp h).2 (by simp)
  obtain ⟨c, k, rfl⟩ : ∃ c k, key = c :: k := by
    cases key with
    | nil => exact absurd rfl hk
    | cons c k => exact ⟨c, k, rfl⟩
  have hcb : c ≠ '!' := by
    intro h
    exact hkb (by simp [h])
  have hidx : indexOfChar ':' (c :: (k ++ ':' :: value)) = some (k.length + 1) := by
    have h0 := indexOfChar_colon (c :: k) value hkc
    simpa using h0
  have hdrop : List.drop (k.length + 1) (k ++ ':' :: value) = value :=
    drop_key_colon k value
  have hget : (k ++ ':' :: value)[k.length + 1]? = value.head? := by
    rw [← List.head?_drop, hdrop]
  rw [parseQuery, splitQueryWords_noSpace _ hqne hq]
  simp [mkFilterTok, hcb, hidx, hdrop, hget, List.take_left, List.drop_left]

lemma parseQuery_single_neg (key value : List Char) (hk : key ≠ [])
    (hkc : ':' ∉ key) (hks : ' ' ∉ key) (hvs : ' ' ∉ value) :
    parseQuery ('!' :: (key ++ ':' :: value)) =
      [RootTok.filter
        { loc := ⟨0, ('!' :: (key ++ ':' :: value)).length⟩
          keyLoc := ⟨1, 1 + key.length⟩
          valueLoc := ⟨1 + key.length + 1, ('!' :: (key ++ ':' :: value)).length⟩
          negated := true
          invalid := false
          text := '!' :: (key ++ ':' :: value)
          keyText := key
          valueText := value
          ftype := if value.head? == some '[' then FType.textIn
                   else FType.text }] := by
  have hq : ' ' ∉ '!' :: (key ++ ':' :: value) := by
    intro h
    rcases List.mem_cons.mp h with h1 | h1
    · exact absurd h1 (by decide)
    · rcases List.mem_append.mp h1 with h2 | h2
      · exact hks h2
      · rcases List.mem_cons.mp h2 with h3 | h3
        · exact absurd h3 (by decide)
        · exact hvs h3
  have hqne : '!' :: (key ++ ':' :: value) ≠ [] := by simp
  have hidx : indexOfChar ':' (key ++ ':' :: value) = some key.length :=
    indexOfChar_colon _ _ hkc
  have hdrop : List.drop (key.length + 1) (key ++ ':' :: value) = value :=
    drop_key_colon key value
  have hget : (key ++ ':' :: value)[key.length + 1]? = value.head? := by
    rw [← List.head?_drop, hdrop]
  have hkl : key.length ≠ 0 := by
    cases key with
    | nil => exact absurd rfl hk
    | cons c k => simp
  rw [parseQuery, splitQueryWords_noSpace _ hqne hq]
  simp [mkFilterTok, hidx, hdrop, hget, hkl, List.take_left, List.drop_left]

lemma hasValidSearchTree_false (toks : List RootTok) (f : FilterTok)
    (hmem : RootTok.filter f ∈ toks) (hinv : f.invalid = true) :
    hasValidSearchTree toks = false := by
  induction toks with
  | nil => cases hmem
  | cons t rest ih =>
    cases t with
    | filter g =>
      rcases List.mem_cons.mp hmem with h | h
      · have hfg : f = g := by injection h
        subst hfg
        simp [hasValidSearchTree, hinv]
      · cases hg : g.invalid <;> simp [hasValidSearchTree, hg, ih h]
    | freeText l txt =>
      rcases List.mem_cons.mp hmem with h | h
      · cases h
      · simp [hasValidSearchTree, ih h]

/-- Claim C1 (amended): the value-state, key-state and free-text completion
handlers of the asynchronous autocomplete pipeline leave the state — in
particular searchGroups and flatSearchItems — untouched whenever the cursor
offset captured at fetch initiation differs from the live cursor offset;
the asynchronous default-state handler instead compares the captured query
text with the live query text and drops the result only when the query
changed. -/
theorem staleness_guard_per_branch (c : Int) (tag term capturedQuery : List Char)
    (g : List SearchGroup) (fl : List SearchItem) (st : BarState) :
    (c ≠ st.cursorPos →
      valueStateOnComplete c g fl st = st
      ∧ keyStateOnComplete c tag g fl st = st
      ∧ freeTextStateOnComplete c term g fl st = st)
    ∧ (capturedQuery ≠ st.query →
        defaultStateOnComplete capturedQuery g fl st = st) := by
  constructor
  · intro h
    refine ⟨?_, ?_, ?_⟩ <;>
      simp [valueStateOnComplete, keyStateOnComplete, freeTextStateOnComplete, h]
  · intro h
    simp [defaultStateOnComplete, h]

/-- Claim C1 (witness): with the cursor captured at offset five and the
live cursor at offset nine, the value-state completion handler drops its
fetched groups and leaves the state unchanged. -/
theorem staleness_guard_per_branch_witness :
    valueStateOnComplete 5 staleGroups [] staleState = staleState :=
  ((staleness_guard_per_branch 5 [] [] [] staleGroups [] staleState).1
    (by decide)).1

/-- Claim C1 (counterexample): the asynchronous default-state completion
handler carries no cursor guard at all. A fetch initiated with the cursor
at offset five, completing with the live cursor at offset nine but the
query text unchanged, still mutates searchGroups — refuting the claim that
every asynchronous branch drops a result whose captured cursor offset
differs from the live one. -/
theorem default_branch_commits_on_moved_cursor :
    (5 : Int) ≠ staleState.cursorPos
    ∧ (defaultStateOnComplete "abc".toList staleGroups [] staleState).searchGroups
        ≠ staleState.searchGroups := by decide

/-- Claim C2: on a query consisting of a single non-negated filter, with
the cursor inside that token, negateToken inserts the negation marker
immediately before the key start; applying negateToken to the re-parsed
result returns exactly the original query, and the cursor shifts by plus
one on insertion and minus one on removal, preserving its relative
position within the key. -/
theorem negateToken_roundtrip (key value : List Char) (c : Int)
    (hk : key ≠ []) (hkc : ':' ∉ key) (hks : ' ' ∉ key)
    (hkb : key.head? ≠ some '!') (hvs : ' ' ∉ value)
    (tok tok' : FilterTok)
    (ht : parseQuery (key ++ ':' :: value) = [RootTok.filter tok])
    (ht' : parseQuery ('!' :: (key ++ ':' :: value)) = [RootTok.filter tok'])
    (_hcur : isWithinToken tok.loc c = true) :
    negateToken (key ++ ':' :: value) tok c
        = ('!' :: (key ++ ':' :: value), c + 1)
    ∧ negateToken ('!' :: (key ++ ':' :: value)) tok' (c + 1)
        = (key ++ ':' :: value, c) := by
  have h1 := (parseQuery_single_pos key value hk hkc hks hkb hvs).symm.trans ht
  have h2 := (parseQuery_single_neg key value hk hkc hks hvs).symm.trans ht'
  simp only [List.cons.injEq, and_true, RootTok.filter.injEq] at h1 h2
  obtain ⟨hn1, hs1, hks1⟩ : tok.negated = false ∧ tok.loc.start = 0 ∧
      tok.keyLoc.start = 0 := by
    rw [← h1]
    exact ⟨rfl, rfl, rfl⟩
  obtain ⟨hn2, hs2, hks2⟩ : tok'.negated = true ∧ tok'.loc.start = 0 ∧
      tok'.keyLoc.start = 1 := by
    rw [← h2]
    exact ⟨rfl, rfl, rfl⟩
  constructor
  · rw [negateToken, hn1]
    simp [hs1, hks1]
  · rw [negateToken, hn2]
    simp [hs2, hks2]

/-- Claim C2 (witness): negating level:error with the cursor at offset
three yields the negated query with the cursor at offset four, and negating
that again restores the original query and cursor. -/
theorem negateToken_roundtrip_witness :
    negateToken ("level".toList ++ ':' :: "error".toList) levelErrorTok 3 =
      ('!' :: ("level".toList ++ ':' :: "error".toList), 4)
    ∧ negateToken ('!' :: ("level".toList ++ ':' :: "error".toList))
        negLevelErrorTok 4 = ("level".toList ++ ':' :: "error".toList, 3) :=
  negateToken_roundtrip "level".toList "error".toList 3 (by decide)
    (by decide) (by decide) (by decide) (by decide) levelErrorTok
    negLevelErrorTok (by decide) (by decide) (by decide)

/-- Claim C3: doSearch fires the external search callback exactly when
hasValidSearch holds; any Filter token marked invalid anywhere in the tree
suppresses the callback; and an absent parse tree — the only failure mode
of the total parsing step, which never throws — is treated optimistically,
so the callback still fires with the space-stripped query. -/
theorem doSearch_fires_iff_valid (q : List Char) (pq : Option (List RootTok))
    (t : Option Nat) :
    ((doSearch q pq t).searched.isSome = true ↔ hasValidSearch pq = true)
    ∧ (∀ f : FilterTok, RootTok.filter f ∈ pq.getD [] → f.invalid = true →
        (doSearch q pq t).searched = none)
    ∧ (doSearch q none t).searched = some (removeSpace q) := by
  refine ⟨?_, ?_, ?_⟩
  · cases h : hasValidSearch pq <;> simp [doSearch, h]
  · intro f hmem hinv
    cases pq with
    | none => simp at hmem
    | some toks =>
      have hv : hasValidSearch (some toks) = false := by
        simpa [hasValidSearch] using
          hasValidSearchTree_false toks f (by simpa using hmem) hinv
      simp [doSearch, hv]
  · simp [doSearch, hasValidSearch]

/-- Claim C3 (witness): a query whose only filter token is marked invalid
does not fire the search callback. -/
theorem doSearch_fires_iff_valid_witness :
    (doSearch "a:b ".toList (some [RootTok.filter invalidAB]) (some 0)).searched
      = none :=
  (doSearch_fires_iff_valid "a:b ".toList (some [RootTok.filter invalidAB])
    (some 0)).2.1 invalidAB (by decide) (by decide)

/-- Claim C4 (counterexample): accepting the value suggestion production on
the query with an empty environment value yields the expected text with one
trailing space, but the cursor lands at the end of the inserted replacement
text — after the trailing space — which is not the offset immediately after
the word production. -/
theorem value_accept_cursor_after_space :
    onAutoCompleteFromAst "environment:".toList 12
      (findTokenAtCursor (parseQuery "environment:".toList) 12)
      (cursorValueOf (parseQuery "environment:".toList) 12)
      ItemType.tagValue "production".toList
      = some ("environment:production ".toList,
          some ("environment:production ".toList).length)
    ∧ ("environment:production ".toList).length
        ≠ ("environment:production".toList).length := by decide

/-- Claim C4 (amended): accepting the value suggestion production on the
query with an empty environment value yields the query text with exactly
one trailing space, and the cursor is placed at the end of the inserted
replacement text, immediately after that trailing space (offset 23). -/
theorem value_accept_trailing_space_cursor :
    onAutoCompleteFromAst "environment:".toList 12
      (findTokenAtCursor (parseQuery "environment:".toList) 12)
      (cursorValueOf (parseQuery "environment:".toList) 12)
      ItemType.tagValue "production".toList
      = some ("environment:production ".toList, some 23) := by decide

/-- Claim C5: accepting the not-equals operator suggestion on a single
plain filter replaces the span from the filter start to the value start
with the negation marker, the key text and the separator, yielding the
key-level negation with the cursor after the re-emitted separator. -/
theorem operator_accept_negation (key value : List Char) (c : Int)
    (tok : FilterTok)
    (hk : key ≠ []) (hkc : ':' ∉ key) (hks : ' ' ∉ key)
    (hkb : key.head? ≠ some '!') (hvs : ' ' ∉ value)
    (ht : parseQuery (key ++ ':' :: value) = [RootTok.filter tok])
    (_hcur : isWithinToken tok.loc c = true) :
    onAutoCompleteFromAst (key ++ ':' :: value) c (some (RootTok.filter tok))
      none ItemType.tagOperator "!:".toList
      = some ('!' :: (key ++ ':' :: value), some (key.length + 2)) := by
  have h1 := (parseQuery_single_pos key value hk hkc hks hkb hvs).symm.trans ht
  simp only [List.cons.injEq, and_true, RootTok.filter.injEq] at h1
  subst h1
  simp [onAutoCompleteFromAst, drop_key_colon key value]

/-- Claim C5 (witness): accepting the not-equals operator on age:5 with the
cursor inside the filter yields the key-level negation, not a marker after
the key. -/
theorem operator_accept_negation_witness :
    onAutoCompleteFromAst ("age".toList ++ ':' :: "5".toList) 2
      (some (RootTok.filter ageTok)) none ItemType.tagOperator "!:".toList
      = some ('!' :: ("age".toList ++ ':' :: "5".toList), some 5) :=
  operator_accept_negation "age".toList "5".toList 2 ageTok (by decide)
    (by decide) (by decide) (by decide) (by decide) (by decide) (by decide)

/-- Claim C6 (counterexample): on a multi-value user filter with the cursor
in the empty slot after the comma, accepting a value suggestion splices the
raw text at the cursor without any quoting — refuting the claim that every
value suggestion accepted on the user key is wrapped in double quotes. -/
theorem user_list_value_unquoted :
    onAutoCompleteFromAst "user:[alice, ]".toList 13
      (some (RootTok.filter userListTok)) none ItemType.tagValue
      "bob".toList
      = some ("user:[alice, bob]".toList, some 16)
    ∧ '"' ∉ "user:[alice, bob]".toList := by decide

/-- Claim C6 (amended): on a simple (non-list) user filter, accepting any
value suggestion wraps the trimmed inserted value in double quotes and
appends a single trailing space, with the cursor at the end of the
insertion; on a multi-value (list) user filter the inserted element is not
quoted. -/
theorem user_value_quoted_simple_filter (rt : List Char) :
    onAutoCompleteFromAst "user:".toList 5
      (findTokenAtCursor (parseQuery "user:".toList) 5)
      (cursorValueOf (parseQuery "user:".toList) 5)
      ItemType.tagValue rt
      = some ("user:".toList ++ '"' :: trimChars rt ++ ['"', ' '],
          some (8 + (trimChars rt).length)) := by
  have h1 : findTokenAtCursor (parseQuery "user:".toList) 5 =
      some (RootTok.filter
        ⟨⟨0, 5⟩, ⟨0, 4⟩, ⟨5, 5⟩, false, false, "user:".toList,
          "user".toList, [], FType.text⟩) := by decide
  have h2 : cursorValueOf (parseQuery "user:".toList) 5 = some ⟨⟨5, 5⟩, []⟩ := by
    decide
  rw [h1, h2]
  simp [onAutoCompleteFromAst, getKeyName, filterValueTok, isWithinToken]
  omega

/-- Claim C6 (witness): accepting the address value on the empty simple
user filter yields the quoted filter text followed by a single trailing
space. -/
theorem user_value_quoted_simple_filter_witness :
    onAutoCompleteFromAst "user:".toList 5
      (findTokenAtCursor (parseQuery "user:".toList) 5)
      (cursorValueOf (parseQuery "user:".toList) 5)
      ItemType.tagValue "alice@example.com".toList
      = some ("user:\"alice@example.com\" ".toList, some 25) :=
  user_value_quoted_simple_filter "alice@example.com".toList

/-- Claim C7: deleteToken removes the token under the cursor with trimmed
splice boundaries — deleting the only token of a single-token query leaves
the empty string, and deleting the middle token of a three-filter query
leaves the neighbors separated by exactly one space. -/
theorem deleteToken_examples :
    deleteToken "a:1".toList
      ((findTokenAtCursor (parseQuery "a:1".toList) 1).map tokLoc)
      (filterLocs "a:1".toList) = []
    ∧ deleteToken "a:1 b:2 c:3".toList
        ((findTokenAtCursor (parseQuery "a:1 b:2 c:3".toList) 5).map tokLoc)
        (filterLocs "a:1 b:2 c:3".toList) = "a:1 c:3".toList := by decide

/-- Claim C8 (counterexample): the first arrow-up press with nothing
highlighted on a three-item list selects the last index, two, not index
zero — refuting the claim that the first press of either direction key
starts at index zero. -/
theorem arrow_up_initial_counterexample :
    nextActiveSearchItem ArrowKey.up (-1) 3 = 2 ∧ (2 : Int) ≠ 0 := by decide

/-- Claim C8 (amended): with items present, arrow-down with nothing
highlighted selects index zero while arrow-up with nothing highlighted
selects the last index; from a highlighted index the keys move circularly
by plus one and minus one modulo the item count, and on a three-item list
three arrow-down presses from no selection visit zero, one, two and a
fourth wraps back to zero. -/
theorem arrow_navigation_circular (i : Int) (n : Nat) :
    (0 < n → nextActiveSearchItem ArrowKey.down (-1) n = 0)
    ∧ (0 < n → nextActiveSearchItem ArrowKey.up (-1) n = (n : Int) - 1)
    ∧ (i ≠ -1 → nextActiveSearchItem ArrowKey.down i n = Int.tmod (i + 1) n)
    ∧ (i ≠ -1 → nextActiveSearchItem ArrowKey.up i n = Int.tmod (i - 1 + n) n)
    ∧ (nextActiveSearchItem ArrowKey.down (-1) 3 = 0
        ∧ nextActiveSearchItem ArrowKey.down 0 3 = 1
        ∧ nextActiveSearchItem ArrowKey.down 1 3 = 2
        ∧ nextActiveSearchItem ArrowKey.down 2 3 = 0) := by
  refine ⟨?_, ?_, ?_, ?_, by decide⟩
  · intro hn
    simp [nextActiveSearchItem]
  · intro hn
    have h1 : Int.tmod (-1 + (n : Int)) (n : Int) = (n : Int) - 1 := by
      have h2 : (-1 + (n : Int)) = (n : Int) - 1 := by ring
      rw [h2, Int.tmod_eq_emod (by omega) (by omega)]
      exact Int.emod_eq_of_lt (by omega) (by omega)
    simp [nextActiveSearchItem, h1]
  · intro hi
    simp [nextActiveSearchItem, hi]
  · intro hi
    simp [nextActiveSearchItem, hi]

/-- Claim C8 (witness): arrow-down from highlighted index one on a
three-item list advances by one modulo the item count. -/
theorem arrow_navigation_circular_witness :
    nextActiveSearchItem ArrowKey.down 1 3 = Int.tmod 2 3 :=
  (arrow_navigation_circular 1 3).2.2.1 (by decide)

/-- Claim C9 (counterexample): pasting text holding two newlines into an
empty query leaves the second newline in the merged text — refuting the
claim that all embedded newline characters are removed. -/
theorem paste_keeps_second_newline :
    onPaste "a\nb\nc".toList [] 0 0 = ("ab\nc".toList, 4)
    ∧ '\n' ∈ (onPaste "a\nb\nc".toList [] 0 0).1 := by decide

/-- Claim C9 (amended): on paste the clipboard text — with only its first
newline removed and then trimmed of surrounding whitespace — replaces the
selected range of the query, and the cursor is placed at the end of the
inserted text; the removal really drops exactly the first newline. -/
theorem paste_splice_first_newline (clip q : List Char) (s e : Nat)
    (u v : List Char) :
    (onPaste clip q s e).1
        = q.take s ++ trimChars (removeFirstNewline clip) ++ q.drop e
    ∧ (onPaste clip q s e).2 = s + (trimChars (removeFirstNewline clip)).length
    ∧ (clip = u ++ '\n' :: v → '\n' ∉ u → removeFirstNewline clip = u ++ v) := by
  refine ⟨rfl, rfl, ?_⟩
  intro hclip hu
  subst hclip
  induction u with
  | nil => simp [removeFirstNewline]
  | cons c urest ih =>
    have hc : c ≠ '\n' := fun h => hu (h ▸ List.mem_cons_self c urest)
    have hr : '\n' ∉ urest := fun h => hu (List.mem_cons_of_mem c h)
    simp [removeFirstNewline, hc, ih hr]

/-- Claim C9 (witness): the first newline of a concrete clipboard text is
removed by the paste preprocessing. -/
theorem paste_splice_first_newline_witness :
    removeFirstNewline "a\nb".toList = "a".toList ++ "b".toList :=
  (paste_splice_first_newline "a\nb".toList [] 0 0 "a".toList "b".toList).2.2
    (by decide) (by decide)

/-- Claim C10: every suggestion produced by the remote-value mapping and by
the predefined-value fetcher carries an escaped value (and description),
where escaping wraps the raw value in double quotes with embedded double
quotes backslash-escaped exactly when the raw value holds a space or a
double quote, and leaves it unchanged otherwise. -/
theorem tag_value_suggestions_escaped (tag : TagDef)
    (fetched : List (List Char)) (q : List Char) :
    (∀ item ∈ getTagValuesItems tag fetched, ∃ raw,
        item.value = some (escapeValue raw) ∧ item.desc = some (escapeValue raw))
    ∧ (∀ item ∈ getPredefinedTagValues tag q, ∃ raw,
        raw ∈ tag.values.getD [] ∧ item.value = some (escapeValue raw)
          ∧ item.desc = some (escapeValue raw))
    ∧ (∀ v : List Char,
        ((v.contains ' ' || v.contains '"') = true →
          escapeValue v = '"' :: (escapeQuotes v ++ ['"']))
        ∧ ((v.contains ' ' || v.contains '"') = false → escapeValue v = v)) := by
  refine ⟨?_, ?_, ?_⟩
  · intro item hmem
    simp only [getTagValuesItems, List.mem_map] at hmem
    obtain ⟨v, hv, rfl⟩ := hmem
    exact ⟨v, rfl, rfl⟩
  · intro item hmem
    simp only [getPredefinedTagValues, List.mem_map] at hmem
    obtain ⟨⟨i, v⟩, hv, rfl⟩ := hmem
    refine ⟨v, ?_, rfl, rfl⟩
    have h1 : v ∈ ((tag.values.getD []).filter fun v => containsSeq q v) := by
      obtain ⟨-, -, hveq⟩ := List.mem_enumFrom hv
      rw [hveq]
      exact List.getElem_mem _
    exact List.mem_of_mem_filter h1
  · intro v
    refine ⟨fun h => ?_, fun h => ?_⟩
    · rw [escapeValue, if_pos h]
    · rw [escapeValue, if_neg]
      rw [h]
      exact Bool.false_ne_true

/-- Claim C10 (witness): the predefined value holding a space becomes a
suggestion whose value is the quoted escape of that raw value. -/
theorem tag_value_suggestions_escaped_witness :
    ∃ raw, raw ∈ demoTag.values.getD []
      ∧ ({ value := some "\"a b\"".toList, desc := some "\"a b\"".toList,
            itemType := ItemType.tagValue } : SearchItem).value
          = some (escapeValue raw)
      ∧ ({ value := some "\"a b\"".toList, desc := some "\"a b\"".toList,
            itemType := ItemType.tagValue } : SearchItem).desc
          = some (escapeValue raw) :=
  (tag_value_suggestions_escaped demoTag [] []).2.1 _ (by decide)
